import Mathlib

/-!
Verification of the monadicast source-to-source lifting tool against its
natural-language specification.  The definitions below are a shallow
embedding of the two analysis/rewrite passes of the repository:

* `src/passes/replace_raw_pointers.rs` — the raw-pointer permission
  inference pass (`RawPtr` namespace);
* `src/passes/replace_while_loop.rs` — the counting-loop lowering pass
  (`WhileLoop` namespace).

`Ident`s are Lean `String`s, `HashMap`s become association lists whose
`insert` replaces every previous entry for the key, `HashSet`s become
duplicate-free lists, and a Rust `panic!`/`unwrap` failure is the
`PanicOr.panicked` outcome.  Machine integers (`i32`) are `Int` together
with an explicit range check where the source parses literals.
-/

namespace Monadicast

/-- Outcome of running a piece of Rust code that may `panic!` (or `unwrap`
a `None`/`Err`): either the process aborts with a panic message, or the
code returns normally. -/
inductive PanicOr (α : Type) : Type
  | panicked (msg : String)
  | ok (a : α)
deriving DecidableEq, Repr

/-- `LitInt::base10_parse::<i32>()`: succeeds exactly when the literal's
value fits in a 32-bit signed integer. -/
def base10_parse_i32 (n : Int) : Option Int :=
  if -2147483648 ≤ n ∧ n ≤ 2147483647 then some n else none

namespace RawPtr

/-- Permissions a raw pointer will need (`PointerAccess` in the source). -/
inductive PointerAccess : Type
  | write      -- The program writes to the pointee.
  | unique     -- The pointer is the only way to access the memory location.
  | free       -- The pointer will eventually be passed to free.
  | offsetAdd  -- An offset is added to the pointer.
  | offsetSub  -- An offset is subtracted from the pointer.
deriving DecidableEq, Repr

/-- Safe replacement types (`RustPointerType` in the source). -/
inductive RustPointerType : Type
  | immutableReference -- &T
  | mutableReference   -- &mut T
  | cellReference      -- &Cell<T>
  | uniquePointer      -- Box<T>
  | immutableSlice     -- &[T]
  | mutableSlice       -- &mut [T]
  | uniqueSlicePointer -- Box<[T]>
  | undefined          -- unsupported combinations
deriving DecidableEq, Repr

/-- The `ACCESSES` constant listing the five permissions in order. -/
def ACCESSES : List PointerAccess :=
  [.write, .unique, .free, .offsetAdd, .offsetSub]

/-- `PointerAccess::determine_rust_type`: maps a permission set (given as
the list of permissions it contains) to the safe pointer type.  The five
`contains` tests mirror the `ACCESSES.iter().map(contains)` destructuring,
and the `match` arms are the source's `match` arms verbatim. -/
def determine_rust_type (permissions : List PointerAccess) : RustPointerType :=
  let has_write := permissions.contains .write
  let has_unique := permissions.contains .unique
  let has_free := permissions.contains .free
  let has_offset_add := permissions.contains .offsetAdd
  let has_offset_sub := permissions.contains .offsetSub
  match has_write, has_unique, has_free, has_offset_add, has_offset_sub with
  -- &T
  | false, false, false, false, false => .immutableReference
  -- Write + Unique -> &mut T
  | true, true, false, false, false => .mutableReference
  -- Write -> &Cell<T>
  | true, false, false, false, false => .cellReference
  -- Unique + Free -> Box<T>
  | false, true, true, false, false => .uniquePointer
  -- Offset -> &[T]
  | false, false, false, true, true => .immutableSlice
  | false, false, false, true, false => .immutableSlice
  | false, false, false, false, true => .immutableSlice
  -- Write + Unique + Offset -> &mut [T]
  | true, true, false, true, true => .mutableSlice
  | true, true, false, true, false => .mutableSlice
  | true, true, false, false, true => .mutableSlice
  -- Unique + Free + Offset -> Box<[T]>
  | false, true, true, true, true => .uniqueSlicePointer
  | false, true, true, true, false => .uniqueSlicePointer
  | false, true, true, false, true => .uniqueSlicePointer
  | _, _, _, _, _ => .undefined

/-- The permission set drawn from the power set of the five permissions,
described by one membership flag per permission. -/
def permsOfBools (w u f oa os : Bool) : List PointerAccess :=
  (if w then [PointerAccess.write] else []) ++
  (if u then [PointerAccess.unique] else []) ++
  (if f then [PointerAccess.free] else []) ++
  (if oa then [PointerAccess.offsetAdd] else []) ++
  (if os then [PointerAccess.offsetSub] else [])

/-- Modelled from the spec: the seven positive rows of the permission
table in spec section 4.2, with "OffsetAdd/Sub (either)" read as "at least
one of the two offset permissions", and every other combination mapped to
`Undefined`. -/
def spec_safe_type (w u f oa os : Bool) : RustPointerType :=
  if !w && !u && !f && !oa && !os then .immutableReference
  else if w && u && !f && !oa && !os then .mutableReference
  else if w && !u && !f && !oa && !os then .cellReference
  else if !w && u && f && !oa && !os then .uniquePointer
  else if !w && !u && !f && (oa || os) then .immutableSlice
  else if w && u && !f && (oa || os) then .mutableSlice
  else if !w && u && f && (oa || os) then .uniqueSlicePointer
  else .undefined

/-- Identifiers (`syn::Ident`). -/
abbrev Ident := String

/-- `syn::TypePtr`: a raw pointer type `*const elem` / `*mut elem`. -/
structure TypePtr : Type where
  mutable : Bool
  elem : String
deriving DecidableEq, Repr

/-- The fragment of `syn::Type` the pass inspects: raw pointer types are
distinguished (`Type::Ptr`), everything else is opaque. -/
inductive Ty : Type
  | ptr (pointer : TypePtr)
  | plain (name : String)
deriving DecidableEq, Repr

/-- The fragment of `syn::Pat` the pass inspects: `Pat::Ident` (with its
mutability flag) and `Pat::Type` (a pattern with a type ascription). -/
inductive Pat : Type
  | ident (mutability : Bool) (name : Ident)
  | typed (pat : Pat) (ty : Ty)
  | wild
deriving DecidableEq, Repr

/-- `syn::UnOp`, distinguishing only dereference as the source does. -/
inductive UnOpM : Type
  | deref
  | otherOp
deriving DecidableEq, Repr

/-- The fragment of `syn::Expr` visited by `RawPointerSanitizer`.  A path
carries its optional `qself` qualification flag and a nonempty segment
list (`seg0 :: rest`); parsed paths always have at least one segment, so
`segments.last().unwrap()` never panics. -/
inductive Expr : Type
  | path (qself : Bool) (seg0 : Ident) (rest : List Ident)
  | methodCall (method : Ident) (receiver : Expr) (args : List Expr)
  | unary (op : UnOpM) (inner : Expr)
  | assign (left : Expr) (right : Expr)
  | lit
  | otherExpr

/-- The fragment of `syn::Stmt` visited by the pass. -/
inductive Stmt : Type
  | localDecl (pat : Pat) (init : Option Expr)
  | exprStmt (e : Expr)
  | otherStmt

/-- `syn::ItemFn`: function arguments (`FnArg` is either a receiver or a
typed pattern) and a body of statements. -/
inductive FnArg : Type
  | receiver
  | typed (pat : Pat) (ty : Ty)
deriving DecidableEq, Repr

structure ItemFn : Type where
  args : List FnArg
  body : List Stmt

/-- A translation unit (`syn::File`): its function items. -/
abbrev File := List ItemFn

/-- A `HashSet<PointerAccess>` as a duplicate-free list. -/
abbrev PermSet := List PointerAccess

/-- `HashSet::insert`: adds the element when absent. -/
def insertPerm (a : PointerAccess) (s : PermSet) : PermSet :=
  if s.contains a then s else a :: s

/-- The `pointers` field: `HashMap<Ident, (TypePtr, HashSet<PointerAccess>)>`
as an association list with at most one entry per key. -/
abbrev Pointers := List (Ident × (TypePtr × PermSet))

/-- `HashMap::insert`: replaces any previous entry for the key. -/
def insertPtr (k : Ident) (v : TypePtr × PermSet) (ptrs : Pointers) : Pointers :=
  (k, v) :: ptrs.filter (fun p => !(p.1 == k))

/-- `HashMap::contains_key`. -/
def containsKey (ptrs : Pointers) (k : Ident) : Bool :=
  ptrs.any (fun p => p.1 == k)

/-- `HashMap::get`. -/
def lookupPtr (ptrs : Pointers) (k : Ident) : Option (TypePtr × PermSet) :=
  List.lookup k ptrs

/-- `pointers.get_mut(ident)` followed by `access_set.insert(a)`: updates
the permission set of the entry for `k` in place (no effect when absent). -/
def updatePerm (ptrs : Pointers) (k : Ident) (a : PointerAccess) : Pointers :=
  ptrs.map (fun p =>
    match p.1 == k with
    | true => (p.1, (p.2.1, insertPerm a p.2.2))
    | false => p)

/-- `path.segments.last().unwrap().ident` on the nonempty segment list. -/
def lastSegment (seg0 : Ident) (rest : List Ident) : Ident :=
  rest.getLastD seg0

/-- `RawPointerSanitizer::record_if_pointer`: inserts a fresh binding with
an empty permission set when the pattern is an identifier and the declared
type is a raw pointer. -/
def record_if_pointer (ptrs : Pointers) (pat : Pat) (ty : Ty) : Pointers :=
  match pat, ty with
  | .ident _ name, .ptr pointer => insertPtr name (pointer, []) ptrs
  | _, _ => ptrs

/-- `RawPointerSanitizer::visit_expr_assign` (lines 186-228): an lvalue of
the shape `*(receiver.method(..)) = rhs` records `Write` for the receiver
when it is an unqualified path whose last segment names a tracked pointer;
qualified paths (`qself` present) and all other shapes record nothing.
The source does not recurse into the assignment's subexpressions. -/
def visit_expr_assign (ptrs : Pointers) (left : Expr) (_right : Expr) : Pointers :=
  match left with
  | .unary .deref (.methodCall _ receiver _) =>
    match receiver with
    | .path qself seg0 rest =>
      match qself with
      | true => ptrs
      | false =>
        match containsKey ptrs (lastSegment seg0 rest) with
        | true => updatePerm ptrs (lastSegment seg0 rest) .write
        | false => ptrs
    | _ => ptrs
  | _ => ptrs

mutual

/-- Dispatch of the read-only visit over expressions.  `Expr::Assign` goes
to the `visit_expr_assign` override (which does not recurse);
`Expr::MethodCall` goes to the `visit_expr_method_call` override, whose
body only prints and then performs the default recursion into the
receiver and the arguments; other expressions recurse structurally. -/
def visit_expr (ptrs : Pointers) : Expr → Pointers
  | .assign left right => visit_expr_assign ptrs left right
  | .methodCall _ receiver args => visit_expr_list (visit_expr ptrs receiver) args
  | .unary _ inner => visit_expr ptrs inner
  | .path _ _ _ => ptrs
  | .lit => ptrs
  | .otherExpr => ptrs

def visit_expr_list (ptrs : Pointers) : List Expr → Pointers
  | [] => ptrs
  | e :: es => visit_expr_list (visit_expr ptrs e) es

end

/-- `RawPointerSanitizer::visit_local`: records the binding when the
pattern is a type-ascribed identifier of raw pointer type, then performs
the default recursion into the initializer expression. -/
def visit_local (ptrs : Pointers) (pat : Pat) (init : Option Expr) : Pointers :=
  let p1 :=
    match pat with
    | .typed inner ty => record_if_pointer ptrs inner ty
    | _ => ptrs
  match init with
  | some e => visit_expr p1 e
  | none => p1

/-- `RawPointerSanitizer::visit_fn_arg`. -/
def visit_fn_arg (ptrs : Pointers) : FnArg → Pointers
  | .typed pat ty => record_if_pointer ptrs pat ty
  | .receiver => ptrs

def visit_stmt (ptrs : Pointers) : Stmt → Pointers
  | .localDecl pat init => visit_local ptrs pat init
  | .exprStmt e => visit_expr ptrs e
  | .otherStmt => ptrs

def visit_item_fn (ptrs : Pointers) (f : ItemFn) : Pointers :=
  f.body.foldl visit_stmt (f.args.foldl visit_fn_arg ptrs)

/-- `self.visit_file(ast)`: the single read-only traversal that both
discovers raw-pointer bindings and accumulates their permissions. -/
def visit_file (ptrs : Pointers) (ast : File) : Pointers :=
  ast.foldl visit_item_fn ptrs

/-- The map held by the `Computing`/`Initialized` states:
`HashMap<Ident, RustPointerType>`. -/
abbrev TypesMap := List (Ident × RustPointerType)

/-- `TypeMappingStateMachine`. -/
inductive TypeMappingStateMachine : Type
  | uninitialized
  | computing (m : TypesMap)
  | initialized (m : TypesMap)
deriving DecidableEq, Repr

def isUninitialized : TypeMappingStateMachine → Bool
  | .uninitialized => true
  | _ => false

def isComputing : TypeMappingStateMachine → Bool
  | .computing _ => true
  | _ => false

/-- `RawPointerSanitizer`: the pointer-binding map and the phase state. -/
structure RawPointerSanitizer : Type where
  pointers : Pointers
  types : TypeMappingStateMachine
deriving DecidableEq, Repr

/-- `RawPointerSanitizer::identify_raw_pointer_args`: traverses the file,
then advances `Uninitialized → Computing(empty map)`; in any other phase
the source executes `panic!("Must be in Uninitialized state")`. -/
def identify_raw_pointer_args (s : RawPointerSanitizer) (ast : File) :
    PanicOr RawPointerSanitizer :=
  let ptrs := visit_file s.pointers ast
  match s.types with
  | .uninitialized => .ok ⟨ptrs, .computing []⟩
  | _ => .panicked "Must be in Uninitialized state"

/-- `RawPointerSanitizer::compute_equivalent_safe_types`: the equivalents
computation is a `TODO` in the source; the function only advances
`Computing(map) → Initialized(map)` with the map unchanged; in any other
phase the source executes `panic!("Must be in Computing state")` (after
restoring the state it had taken out). -/
def compute_equivalent_safe_types (s : RawPointerSanitizer) :
    PanicOr RawPointerSanitizer :=
  match s.types with
  | .computing m => .ok ⟨s.pointers, .initialized m⟩
  | _ => .panicked "Must be in Computing state"

/-- `Pass::bind` for `RawPointerSanitizer` on a fresh (`Default`) pass
state: identify, then compute (the final `visit_file_mut` is an empty
`VisitMut` implementation and changes nothing). -/
def bindPass (ast : File) : PanicOr RawPointerSanitizer :=
  match identify_raw_pointer_args ⟨[], .uninitialized⟩ ast with
  | .panicked m => .panicked m
  | .ok s => compute_equivalent_safe_types s

/-- A translation unit with a single raw-pointer parameter and an empty
body: `fn f(p: *mut i32) {}`. -/
def c2_file : File :=
  [⟨[.typed (.ident true "p") (.ptr ⟨true, "i32"⟩)], []⟩]

/-- A translation unit whose only use of the raw pointer `q` is a pointer
arithmetic call: `fn f(q: *mut i32) { q.offset(1); }`. -/
def c3_file : File :=
  [⟨[.typed (.ident true "q") (.ptr ⟨true, "i32"⟩)],
    [.exprStmt (.methodCall "offset" (.path false "q" []) [.lit])]⟩]

end RawPtr

namespace WhileLoop

/-- `syn::Lit`, distinguishing integer literals.  An integer literal
carries its mathematical (base-10) value. -/
inductive Lit : Type
  | int (n : Int)
  | otherLit
deriving DecidableEq, Repr

/-- `syn::BinOp`.  The pass's behaviour depends only on whether the
operator is `Lt` or `Le`; the remaining operators are carried so the
non-match cases can be stated. -/
inductive BinOp : Type
  | lt
  | le
  | add
  | sub
  | addAssign
  | subAssign
  | eqOp
  | otherOp
deriving DecidableEq, Repr

/-- The fragment of `syn::Pat` the pass inspects: `Pat::Ident` and
`Pat::Type` (a pattern with a type ascription). -/
inductive Pat : Type
  | ident (name : String)
  | typed (pat : Pat) (ty : String)
  | wild
deriving DecidableEq, Repr

mutual

/-- The fragment of `syn::Expr` the pass inspects.  A path carries its
first segment (`segments[0]`, the only one this pass reads) plus the
remaining segments.  `forRange` is the `for #var in #range #body` loop
the rewrite emits; `inclusive` selects `..=` over `..`. -/
inductive Expr : Type
  | path (seg0 : String) (rest : List String)
  | lit (l : Lit)
  | binary (op : BinOp) (left : Expr) (right : Expr)
  | cast (e : Expr) (ty : String)
  | assign (left : Expr) (right : Expr)
  | whileLoop (cond : Expr) (body : List Stmt)
  | forRange (var : String) (lower : Expr) (upper : Expr)
      (inclusive : Bool) (body : List Stmt)
  | otherExpr

/-- The fragment of `syn::Stmt` the pass inspects.  `semi` records the
optional trailing semicolon token, which the source's patterns ignore. -/
inductive Stmt : Type
  | localDecl (pat : Pat) (init : Option Expr)
  | exprStmt (e : Expr) (semi : Bool)
  | otherStmt

end

/-- The `loop_vars` field: `HashMap<String, i32>` as an association list
whose insert replaces any previous entry for the key. -/
abbrev LoopVars := List (String × Int)

def insertVar (k : String) (v : Int) (vars : LoopVars) : LoopVars :=
  (k, v) :: vars.filter (fun p => !(p.1 == k))

def lookupVar (vars : LoopVars) (k : String) : Option Int :=
  List.lookup k vars

/-- `WhileLoopReplacer::is_increment_stmt` (lines 19-54).  First arm:
an assignment `x = y OP lit` returns `segments[0] of y == var_name`
whenever `x`'s first segment equals `var_name` — the operator and the
literal are not inspected.  Second arm: a binary expression statement
`x OP lit` (how `syn` represents compound assignments such as `x += 1`)
returns whether the integer literal parses to exactly `1`; the
`base10_parse::<i32>().unwrap()` panics when the literal does not fit in
an `i32`.  Every other statement shape returns `false`. -/
def is_increment_stmt (stmt : Stmt) (var_name : String) : PanicOr Bool :=
  match stmt with
  | .exprStmt (.assign aleft aright) _ =>
    match aleft with
    | .path seg0 _ =>
      match seg0 == var_name with
      | true =>
        match aright with
        | .binary _ bleft bright =>
          match bleft, bright with
          | .path bseg0 _, .lit _ => .ok (bseg0 == var_name)
          | _, _ => .ok false
        | _ => .ok false
      | false => .ok false
    | _ => .ok false
  | .exprStmt (.binary _ bleft bright) _ =>
    match bleft, bright with
    | .path seg0 _, .lit l =>
      match seg0 == var_name with
      | true =>
        match l with
        | .int n =>
          match base10_parse_i32 n with
          | some v => .ok (v == 1)
          | none => .panicked "base10_parse i32 out of range"
        | .otherLit => .ok false
      | false => .ok false
    | _, _ => .ok false
  | _ => .ok false

/-- The body filter of lines 142-148: keeps, in order, exactly the
statements for which `is_increment_stmt` is false; a panic raised while
deciding a statement aborts the whole pass. -/
def filter_not_increment (var_name : String) : List Stmt → PanicOr (List Stmt)
  | [] => .ok []
  | s :: rest =>
    match is_increment_stmt s var_name with
    | .panicked m => .panicked m
    | .ok b =>
      match filter_not_increment var_name rest with
      | .panicked m => .panicked m
      | .ok l =>
        .ok (match b with
          | true => l
          | false => s :: l)

/-- The upper-bound resolution of lines 107-128: a path substitutes its
recorded value (as an integer literal expression) when its first segment
is a recorded variable, and otherwise passes through as a one-segment
identifier path; an integer literal passes through; any other shape is a
non-match (`return`), reported here as `none`. -/
def upper_bound_of (vars : LoopVars) (right : Expr) : Option Expr :=
  match right with
  | .path r0 _ =>
    match lookupVar vars r0 with
    | some value => some (.lit (.int value))
    | none => some (.path r0 [])
  | .lit (.int n) => some (.lit (.int n))
  | _ => none

/-- The range-kind match of lines 136-140: `Lt` gives an exclusive range,
`Le` an inclusive range, every other operator is a non-match. -/
def range_inclusive : BinOp → Option Bool
  | .lt => some false
  | .le => some true
  | _ => none

mutual

/-- Constructor-counting size of an expression, used as the termination
measure of the traversal below (literal values do not contribute). -/
def esize : Expr → Nat
  | .path _ _ => 1
  | .lit _ => 1
  | .binary _ l r => 1 + esize l + esize r
  | .cast e _ => 1 + esize e
  | .assign l r => 1 + esize l + esize r
  | .whileLoop c b => 1 + esize c + lsize b
  | .forRange _ lo hi _ b => 1 + esize lo + esize hi + lsize b
  | .otherExpr => 1

def ssize : Stmt → Nat
  | .localDecl _ (some e) => 1 + esize e
  | .localDecl _ none => 1
  | .exprStmt e _ => 1 + esize e
  | .otherStmt => 1

def lsize : List Stmt → Nat
  | [] => 0
  | s :: l => 1 + ssize s + lsize l

end

/-- The filtered body is no larger than the original body; used by the
termination argument of the traversal below. -/
def lsize_filter_le (v : String) :
    ∀ (l l2 : List Stmt), filter_not_increment v l = .ok l2 → lsize l2 ≤ lsize l := by
  intro l
  induction l with
  | nil =>
    intro l2 h
    simp only [filter_not_increment, PanicOr.ok.injEq] at h
    subst h
    exact Nat.le_refl _
  | cons s t ih =>
    intro l2 h
    simp only [filter_not_increment] at h
    cases hinc : is_increment_stmt s v with
    | panicked m => rw [hinc] at h; exact absurd h (by simp)
    | ok b =>
      rw [hinc] at h
      cases hrest : filter_not_increment v t with
      | panicked m => rw [hrest] at h; exact absurd h (by simp)
      | ok l3 =>
        rw [hrest] at h
        simp only [PanicOr.ok.injEq] at h
        subst h
        have h3 := ih l3 hrest
        cases b
        · show lsize (s :: l3) ≤ lsize (s :: t)
          simp only [lsize]
          omega
        · show lsize l3 ≤ lsize (s :: t)
          simp only [lsize]
          omega

/-- A resolved upper bound is a literal or a one-segment path, hence of
size one; used by the termination argument of the traversal below. -/
def esize_upper_bound {vars : LoopVars} {r u : Expr}
    (h : upper_bound_of vars r = some u) : esize u = 1 := by
  cases r with
  | path r0 rest =>
    simp only [upper_bound_of] at h
    cases hl : lookupVar vars r0 with
    | some v0 => rw [hl] at h; cases h; rfl
    | none => rw [hl] at h; cases h; rfl
  | lit l =>
    cases l with
    | int n => simp only [upper_bound_of] at h; cases h; rfl
    | otherLit => simp [upper_bound_of] at h
  | binary op l r2 => simp [upper_bound_of] at h
  | cast e ty => simp [upper_bound_of] at h
  | assign l r2 => simp [upper_bound_of] at h
  | whileLoop c b => simp [upper_bound_of] at h
  | forRange v lo hi inc b => simp [upper_bound_of] at h
  | otherExpr => simp [upper_bound_of] at h

/-- `upper_bound_of` packaged with its size certificate, so the traversal
below can justify its termination when it visits the resolved bound. -/
def upper_bound_sized (vars : LoopVars) (right : Expr) :
    Option {e : Expr // esize e = 1} :=
  match h : upper_bound_of vars right with
  | none => none
  | some u => some ⟨u, esize_upper_bound h⟩

/-- `filter_not_increment` packaged with its size certificate, so the
traversal below can justify its termination when it visits the filtered
body. -/
def filter_not_increment_sized (v : String) (l : List Stmt) :
    PanicOr {l2 : List Stmt // lsize l2 ≤ lsize l} :=
  match h : filter_not_increment v l with
  | .panicked m => .panicked m
  | .ok l2 => .ok ⟨l2, lsize_filter_le v l l2 h⟩

mutual

/-- `WhileLoopReplacer::visit_stmt_mut` (lines 64-168).

* A local declaration whose initializer is an integer literal inside a
  cast records name → value in `loop_vars` (an `i32`-parse failure of the
  literal is an `unwrap` panic); the recorded name is the empty string
  when the pattern is not a type-ascribed identifier, exactly as the
  source's `String::new()` default.
* A while-loop statement whose condition is a binary comparison with a
  recorded path on the left is rewritten to a `for` loop over the
  computed range with the increment statements filtered out of the body,
  and the trailing `syn::visit_mut::visit_stmt_mut(self, stmt)` call then
  recurses into the replacement statement; when the left side is not a
  path, or the upper bound or the operator fails to match, the source
  `return`s early and the recursion is skipped; when only the left
  variable is unrecorded, the loop is kept and the trailing call recurses
  into the original while loop.
* Every other statement is left unchanged (the trailing recursion is
  inside the while-loop branch, so nothing else is visited). -/
def visit_stmt_mut (vars : LoopVars) : Stmt → PanicOr (LoopVars × Stmt)
  | .localDecl pat init =>
    let variable_name :=
      match pat with
      | .typed (.ident n) _ => n
      | _ => ""
    (match init with
    | some (.cast (.lit (.int n)) ty) =>
      match base10_parse_i32 n with
      | none => .panicked "base10_parse i32 out of range"
      | some v =>
        .ok (insertVar variable_name v vars,
          .localDecl pat (some (.cast (.lit (.int n)) ty)))
    | _ => .ok (vars, .localDecl pat init))
  | .exprStmt (.whileLoop cond body) semi =>
    (match cond with
    | .binary op condLeft condRight =>
      (match condLeft with
      | .path seg0 lrest =>
        (match lookupVar vars seg0 with
        | some value =>
          (match upper_bound_sized vars condRight with
          | none =>
            .ok (vars,
              .exprStmt (.whileLoop (.binary op (.path seg0 lrest) condRight) body) semi)
          | some su =>
            (match range_inclusive op with
            | none =>
              .ok (vars,
                .exprStmt (.whileLoop (.binary op (.path seg0 lrest) condRight) body) semi)
            | some inc =>
              (match filter_not_increment_sized seg0 body with
              | .panicked m => .panicked m
              | .ok sf =>
                match visit_expr_children vars (.lit (.int value)) with
                | .panicked m => .panicked m
                | .ok (v1, lower2) =>
                  match visit_expr_children v1 su.1 with
                  | .panicked m => .panicked m
                  | .ok (v2, upper2) =>
                    match visit_stmts v2 sf.1 with
                    | .panicked m => .panicked m
                    | .ok (v3, body2) =>
                      .ok (v3, .exprStmt (.forRange seg0 lower2 upper2 inc body2) false))))
        | none =>
          visit_while_default vars (.binary op (.path seg0 lrest) condRight) body semi)
      | _ =>
        .ok (vars, .exprStmt (.whileLoop (.binary op condLeft condRight) body) semi))
    | condOther => visit_while_default vars condOther body semi)
  | s => .ok (vars, s)
termination_by s => ssize s
decreasing_by
  all_goals first
    | omega
    | (simp only [ssize, esize, lsize]; omega)
    | (simp only [ssize, esize, lsize]; rw [su.2]; omega)
    | (have hle := sf.2
       simp only [ssize, esize, lsize] at hle ⊢
       omega)

/-- The trailing `syn::visit_mut::visit_stmt_mut(self, stmt)` call on a
while-loop statement: the default traversal visits the condition
expression and then each statement of the body through the overridden
`visit_stmt_mut`. -/
def visit_while_default (vars : LoopVars) (cond : Expr) (body : List Stmt)
    (semi : Bool) : PanicOr (LoopVars × Stmt) :=
  match visit_expr_children vars cond with
  | .panicked m => .panicked m
  | .ok (v1, cond2) =>
    match visit_stmts v1 body with
    | .panicked m => .panicked m
    | .ok (v2, body2) => .ok (v2, .exprStmt (.whileLoop cond2 body2) semi)
termination_by 1 + esize cond + lsize body
decreasing_by
  all_goals first
    | omega
    | (simp only [ssize, esize, lsize]; omega)

/-- The default (un-overridden) expression traversal: it walks the
expression structurally, reaching nested statements only through the
statement lists of loop bodies, which are visited through the overridden
`visit_stmt_mut`. -/
def visit_expr_children (vars : LoopVars) : Expr → PanicOr (LoopVars × Expr)
  | .binary op l r =>
    match visit_expr_children vars l with
    | .panicked m => .panicked m
    | .ok (v1, l2) =>
      match visit_expr_children v1 r with
      | .panicked m => .panicked m
      | .ok (v2, r2) => .ok (v2, .binary op l2 r2)
  | .cast e ty =>
    match visit_expr_children vars e with
    | .panicked m => .panicked m
    | .ok (v1, e2) => .ok (v1, .cast e2 ty)
  | .assign l r =>
    match visit_expr_children vars l with
    | .panicked m => .panicked m
    | .ok (v1, l2) =>
      match visit_expr_children v1 r with
      | .panicked m => .panicked m
      | .ok (v2, r2) => .ok (v2, .assign l2 r2)
  | .whileLoop c b =>
    match visit_expr_children vars c with
    | .panicked m => .panicked m
    | .ok (v1, c2) =>
      match visit_stmts v1 b with
      | .panicked m => .panicked m
      | .ok (v2, b2) => .ok (v2, .whileLoop c2 b2)
  | .forRange v lo hi inc b =>
    match visit_expr_children vars lo with
    | .panicked m => .panicked m
    | .ok (v1, lo2) =>
      match visit_expr_children v1 hi with
      | .panicked m => .panicked m
      | .ok (v2, hi2) =>
        match visit_stmts v2 b with
        | .panicked m => .panicked m
        | .ok (v3, b2) => .ok (v3, .forRange v lo2 hi2 inc b2)
  | .path s r => .ok (vars, .path s r)
  | .lit l => .ok (vars, .lit l)
  | .otherExpr => .ok (vars, .otherExpr)
termination_by e => esize e
decreasing_by
  all_goals first
    | omega
    | (simp only [ssize, esize, lsize]; omega)

/-- A statement list (a block's statements), each visited through the
overridden `visit_stmt_mut`. -/
def visit_stmts (vars : LoopVars) : List Stmt → PanicOr (LoopVars × List Stmt)
  | [] => .ok (vars, [])
  | s :: rest =>
    match visit_stmt_mut vars s with
    | .panicked m => .panicked m
    | .ok (v1, s2) =>
      match visit_stmts v1 rest with
      | .panicked m => .panicked m
      | .ok (v2, l2) => .ok (v2, s2 :: l2)
termination_by l => lsize l
decreasing_by
  all_goals first
    | omega
    | (simp only [ssize, esize, lsize]; omega)

end

/-- `Pass::bind` for `WhileLoopReplacer`: `visit_file_mut` visits every
function body's statements in order with the same pass instance, whose
`loop_vars` map is never cleared between items; a translation unit is
modelled as the list of its function bodies (statement blocks). -/
def visit_file (vars : LoopVars) :
    List (List Stmt) → PanicOr (LoopVars × List (List Stmt))
  | [] => .ok (vars, [])
  | b :: bs =>
    match visit_stmts vars b with
    | .panicked m => .panicked m
    | .ok (v1, b2) =>
      match visit_file v1 bs with
      | .panicked m => .panicked m
      | .ok (v2, bs2) => .ok (v2, b2 :: bs2)

/-- The declaration `let i: i32 = 0 as i32;`. -/
def declStmt (name : String) (ty : String) (n : Int) : Stmt :=
  .localDecl (.typed (.ident name) ty) (some (.cast (.lit (.int n)) ty))

/-- The statement `i = i + 2;` — an assignment that changes the induction
variable by a literal other than 1. -/
def c4_add_two_stmt : Stmt :=
  .exprStmt (.assign (.path "i" []) (.binary .add (.path "i" []) (.lit (.int 2)))) true

/-- `let i: i32 = 0 as i32; while i < 10 { i = i + 2; }`. -/
def c4_input : List Stmt :=
  [declStmt "i" "i32" 0,
   .exprStmt (.whileLoop (.binary .lt (.path "i" []) (.lit (.int 10)))
     [c4_add_two_stmt]) true]

/-- `let x: i64 = 3000000000 as i64;` — the literal does not fit in an
`i32`. -/
def c6_input : Stmt :=
  .localDecl (.typed (.ident "x") "i64")
    (some (.cast (.lit (.int 3000000000)) "i64"))

/-- The statement shape the assignment arm of `is_increment_stmt` accepts:
`v = v OP lit` for an arbitrary binary operator and an arbitrary literal. -/
def increment_shape_assign (s : Stmt) (v : String) : Prop :=
  ∃ lrest op brest l semi,
    s = .exprStmt (.assign (.path v lrest)
      (.binary op (.path v brest) (.lit l))) semi

/-- The statement shape the binary-expression arm of `is_increment_stmt`
accepts: `v OP 1` for an arbitrary binary operator and the integer
literal 1. -/
def increment_shape_compound (s : Stmt) (v : String) : Prop :=
  ∃ lrest op semi,
    s = .exprStmt (.binary op (.path v lrest) (.lit (.int 1))) semi

/-- A while-loop statement whose condition is `v OP rhs` with a path on
the left. -/
def whileStmt (op : BinOp) (v : String) (lrest : List String) (rhs : Expr)
    (body : List Stmt) (semi : Bool) : Stmt :=
  .exprStmt (.whileLoop (.binary op (.path v lrest) rhs) body) semi

/-- First lexical block: `fn a() { let i: i32 = 0 as i32; }`. -/
def c8_block1 : List Stmt := [declStmt "i" "i32" 0]

/-- Second, distinct lexical block: `fn b() { while i < 3 {} }`. -/
def c8_block2 : List Stmt :=
  [.exprStmt (.whileLoop (.binary .lt (.path "i" []) (.lit (.int 3))) []) true]

end WhileLoop

end Monadicast

namespace Monadicast.RawPtr

/-- C1: For every permission set in the power set of
{Write, Unique, Free, OffsetAdd, OffsetSub} (all 32 combinations),
`determine_rust_type` returns exactly the safe pointer type given by the
seven positive rows of the spec's table, and every combination outside
those rows returns `Undefined`. -/
theorem c1_lattice_matches_spec_table (w u f oa os : Bool) :
    determine_rust_type (permsOfBools w u f oa os) = spec_safe_type w u f oa os := by
  cases w <;> cases u <;> cases f <;> cases oa <;> cases os <;> decide

/-- Erasing a key from the map leaves no entry with that key. -/
theorem filter_key_erase (l : Pointers) (k : Ident) :
    ((l.filter fun p => !(p.1 == k)).filter fun p => p.1 == k) = [] := by
  induction l with
  | nil => rfl
  | cons a t ih =>
    by_cases h : a.1 = k <;> simp [List.filter_cons, h, ih]

/-- A successful lookup implies `contains_key`. -/
theorem containsKey_of_lookup (ptrs : Pointers) (k : Ident) (v : TypePtr × PermSet)
    (h : lookupPtr ptrs k = some v) : containsKey ptrs k = true := by
  induction ptrs with
  | nil => simp [lookupPtr, List.lookup] at h
  | cons a t ih =>
    rcases a with ⟨k1, v1⟩
    by_cases hb : k = k1
    · simp [containsKey, List.any_cons, hb]
    · simp only [lookupPtr, List.lookup, beq_false_of_ne hb] at h
      have h2 := ih h
      simp only [containsKey, List.any_cons] at h2 ⊢
      simp [h2]

/-- Updating the permission set of `k` rewrites exactly the entry of `k`. -/
theorem lookup_updatePerm (ptrs : Pointers) (k : Ident) (a : PointerAccess)
    (tp : TypePtr) (perms : PermSet) (h : lookupPtr ptrs k = some (tp, perms)) :
    lookupPtr (updatePerm ptrs k a) k = some (tp, insertPerm a perms) := by
  induction ptrs with
  | nil => simp [lookupPtr, List.lookup] at h
  | cons p t ih =>
    rcases p with ⟨k1, tp1, ps1⟩
    by_cases hb : k1 = k
    · subst hb
      simp only [lookupPtr, List.lookup, beq_self_eq_true] at h
      simp only [Option.some_inj, Prod.mk.injEq] at h
      simp [updatePerm, lookupPtr, List.lookup, h.1, h.2]
    · have hkk : k ≠ k1 := fun hh => hb hh.symm
      simp only [lookupPtr, List.lookup, beq_false_of_ne hkk] at h
      have h2 := ih h
      simp only [lookupPtr, updatePerm] at h2
      simp [updatePerm, lookupPtr, List.lookup, beq_false_of_ne hb,
        beq_false_of_ne hkk, h2]

/-- C2: Running Discover then Resolve on `fn f(p: *mut i32) {}` reaches the
`Initialized` phase with an empty type mapping, although the binding `p`
was discovered: the discovered binding is left without a resolved safe
type, because `compute_equivalent_safe_types` never populates the map
(its computation is a `TODO` stub in the source). -/
theorem c2_resolve_leaves_bindings_untyped :
    bindPass c2_file = .ok ⟨[("p", (⟨true, "i32"⟩, []))], .initialized []⟩ ∧
    containsKey [("p", (⟨true, "i32"⟩, []))] "p" = true ∧
    List.lookup "p" ([] : TypesMap) = none := by
  refine ⟨?_, by decide, rfl⟩
  rfl

/-- C3: On `fn f(q: *mut i32) { q.offset(1); }` the Accumulate traversal
records no permission at all for `q` — its permission set is still empty
after the analysis — although the claim (and the source's own TODO
comment) intends the pointer-arithmetic call to record `OffsetAdd`. -/
theorem c3_offset_never_recorded :
    bindPass c3_file = .ok ⟨[("q", (⟨true, "i32"⟩, []))], .initialized []⟩ := by
  rfl

/-- C7 counterexample: calling `compute_equivalent_safe_types` out of
order (from the `Uninitialized` phase) panics — it aborts with
`"Must be in Computing state"` instead of returning a result value that
reports the misuse to the caller. -/
theorem c7_counterexample_transition_panics :
    compute_equivalent_safe_types ⟨[], .uninitialized⟩ =
      .panicked "Must be in Computing state" := rfl

/-- C7 amended: the phase-transition operations, called out of order,
abort by `panic!` with a message naming the required phase; no error
value is returned to the caller. -/
theorem c7_amended_out_of_order_panics (s : RawPointerSanitizer) (ast : File)
    (h1 : isComputing s.types = false) (h2 : isUninitialized s.types = false) :
    compute_equivalent_safe_types s = .panicked "Must be in Computing state" ∧
    identify_raw_pointer_args s ast = .panicked "Must be in Uninitialized state" := by
  rcases s with ⟨ptrs, ty⟩
  cases ty <;>
    simp_all [isComputing, isUninitialized, compute_equivalent_safe_types,
      identify_raw_pointer_args]

theorem c7_amended_out_of_order_panics_witness :
    isComputing (TypeMappingStateMachine.initialized []) = false ∧
    isUninitialized (TypeMappingStateMachine.initialized []) = false ∧
    (compute_equivalent_safe_types ⟨[], .initialized []⟩ =
        .panicked "Must be in Computing state" ∧
      identify_raw_pointer_args ⟨[], .initialized []⟩ [] =
        .panicked "Must be in Uninitialized state") :=
  ⟨rfl, rfl, c7_amended_out_of_order_panics ⟨[], .initialized []⟩ [] rfl rfl⟩

/-- C9: During Accumulate, an assignment whose left side is a dereference
of a method call whose receiver is an unqualified path whose (last)
segment names a tracked raw-pointer binding records `Write` in that
binding's permission set; the same assignment with a type-qualified
receiver path (`qself` present) changes nothing for any binding. -/
theorem c9_deref_assign_records_write (ptrs : Pointers) (m : Ident)
    (seg0 : Ident) (rest : List Ident) (args : List Expr) (right : Expr)
    (tp : TypePtr) (perms : PermSet)
    (h : lookupPtr ptrs (lastSegment seg0 rest) = some (tp, perms)) :
    lookupPtr
        (visit_expr_assign ptrs
          (.unary .deref (.methodCall m (.path false seg0 rest) args)) right)
        (lastSegment seg0 rest) = some (tp, insertPerm .write perms) ∧
    visit_expr_assign ptrs
        (.unary .deref (.methodCall m (.path true seg0 rest) args)) right = ptrs := by
  constructor
  · simp only [visit_expr_assign,
      containsKey_of_lookup ptrs (lastSegment seg0 rest) (tp, perms) h]
    exact lookup_updatePerm ptrs (lastSegment seg0 rest) .write tp perms h
  · rfl

theorem c9_deref_assign_records_write_witness :
    lookupPtr [("p", (⟨true, "i32"⟩, []))] (lastSegment "p" []) =
      some (⟨true, "i32"⟩, []) ∧
    (lookupPtr
        (visit_expr_assign [("p", (⟨true, "i32"⟩, []))]
          (.unary .deref (.methodCall "offset" (.path false "p" []) [.lit])) .lit)
        (lastSegment "p" []) = some (⟨true, "i32"⟩, insertPerm .write []) ∧
      visit_expr_assign [("p", (⟨true, "i32"⟩, []))]
        (.unary .deref (.methodCall "offset" (.path true "p" []) [.lit])) .lit =
        [("p", (⟨true, "i32"⟩, []))]) :=
  ⟨by decide,
    c9_deref_assign_records_write [("p", (⟨true, "i32"⟩, []))] "offset" "p" []
      [.lit] .lit ⟨true, "i32"⟩ [] (by decide)⟩

/-- C10: Two declarations of raw-pointer type sharing one identifier keep
a single entry in the `pointers` map: the later `record_if_pointer` call
overwrites the earlier entry and resets the permission set to empty. -/
theorem c10_rebind_overwrites_and_resets (ptrs : Pointers)
    (mut1 mut2 : Bool) (name : Ident) (tp1 tp2 : TypePtr) :
    lookupPtr
        (record_if_pointer (record_if_pointer ptrs (.ident mut1 name) (.ptr tp1))
          (.ident mut2 name) (.ptr tp2)) name = some (tp2, []) ∧
    ((record_if_pointer (record_if_pointer ptrs (.ident mut1 name) (.ptr tp1))
          (.ident mut2 name) (.ptr tp2)).filter
        (fun p => p.1 == name)).length = 1 := by
  constructor
  · simp [record_if_pointer, insertPtr, lookupPtr, List.lookup]
  · simp only [record_if_pointer, insertPtr]
    rw [List.filter_cons]
    simp [filter_key_erase]

end Monadicast.RawPtr


namespace Monadicast.WhileLoop

/-- Unfolding `upper_bound_sized` through a successful `upper_bound_of`. -/
theorem upper_bound_sized_of {vars : LoopVars} {r u : Expr}
    (h : upper_bound_of vars r = some u) :
    upper_bound_sized vars r = some ⟨u, esize_upper_bound h⟩ := by
  unfold upper_bound_sized
  split
  · rename_i heq
    rw [heq] at h
    exact absurd h (by simp)
  · rename_i u2 heq
    rw [heq] at h
    simp only [Option.some_inj] at h
    subst h
    rfl

/-- Unfolding `filter_not_increment_sized` through a successful filter. -/
theorem filter_not_increment_sized_ok {v : String} {l l2 : List Stmt}
    (h : filter_not_increment v l = .ok l2) :
    filter_not_increment_sized v l = .ok ⟨l2, lsize_filter_le v l l2 h⟩ := by
  unfold filter_not_increment_sized
  split
  · rename_i m heq
    rw [heq] at h
    exact absurd h (by simp)
  · rename_i l3 heq
    rw [heq] at h
    simp only [PanicOr.ok.injEq] at h
    subst h
    rfl

/-- Unfolding `filter_not_increment_sized` through a panicking filter. -/
theorem filter_not_increment_sized_panicked {v : String} {l : List Stmt}
    {m : String} (h : filter_not_increment v l = .panicked m) :
    filter_not_increment_sized v l = .panicked m := by
  unfold filter_not_increment_sized
  split
  · rename_i m2 heq
    rw [heq] at h
    simp only [PanicOr.panicked.injEq] at h
    subst h
    rfl
  · rename_i l3 heq
    rw [heq] at h
    exact absurd h (by simp)

/-- A resolved upper bound (a literal or a one-segment path) is left
unchanged, with unchanged state, by the default expression traversal. -/
theorem visit_expr_children_upper_id {vars : LoopVars} {r u : Expr}
    (h : upper_bound_of vars r = some u) (vs : LoopVars) :
    visit_expr_children vs u = .ok (vs, u) := by
  cases r with
  | path r0 rest =>
    simp only [upper_bound_of] at h
    cases hl : lookupVar vars r0 with
    | some v0 => rw [hl] at h; cases h; simp [visit_expr_children]
    | none => rw [hl] at h; cases h; simp [visit_expr_children]
  | lit l =>
    cases l with
    | int n => simp only [upper_bound_of] at h; cases h; simp [visit_expr_children]
    | otherLit => simp [upper_bound_of] at h
  | binary op l r2 => simp [upper_bound_of] at h
  | cast e ty => simp [upper_bound_of] at h
  | assign l r2 => simp [upper_bound_of] at h
  | whileLoop c b => simp [upper_bound_of] at h
  | forRange v lo hi inc b => simp [upper_bound_of] at h
  | otherExpr => simp [upper_bound_of] at h

/-- C4 counterexample: on
`let i: i32 = 0 as i32; while i < 10 { i = i + 2; }` the rewritten loop's
body is empty — the statement `i = i + 2`, which increments the induction
variable by 2 rather than by 1, is removed, although the claim says every
such statement is retained. -/
theorem c4_counterexample_increment_by_two_removed :
    visit_stmts [] c4_input =
      .ok ([("i", 0)],
        [declStmt "i" "i32" 0,
         .exprStmt (.forRange "i" (.lit (.int 0)) (.lit (.int 10)) false []) false]) := by
  simp [visit_stmts, visit_stmt_mut, visit_expr_children, c4_input, declStmt,
    c4_add_two_stmt, filter_not_increment, is_increment_stmt, upper_bound_of,
    upper_bound_sized, filter_not_increment_sized,
    range_inclusive, base10_parse_i32, lookupVar, insertVar, List.lookup]

/-- C4 amended: a body statement is recognized as an increment (and hence
removed from the rewritten body) exactly when it is either an assignment
`var = var OP lit` — for an arbitrary binary operator and an arbitrary
literal, so `var = var + 2` is removed as well — or a bare binary
expression statement `var OP lit` whose integer literal is exactly 1. -/
theorem c4_amended_increment_recognition (s : Stmt) (v : String) :
    is_increment_stmt s v = .ok true ↔
      increment_shape_assign s v ∨ increment_shape_compound s v := by
  constructor
  · intro h
    unfold is_increment_stmt at h
    repeat' split at h
    all_goals simp_all [increment_shape_assign, increment_shape_compound,
      base10_parse_i32]
  · rintro (⟨lrest, op, brest, l, semi, rfl⟩ | ⟨lrest, op, semi, rfl⟩)
    · simp [is_increment_stmt]
    · simp [is_increment_stmt, base10_parse_i32]

/-- C6: the pass is not total — a local declaration whose initializer
casts the integer literal 3000000000, which does not fit in an `i32`,
makes `base10_parse::<i32>().unwrap()` panic, aborting the pass instead
of preserving the statement. -/
theorem c6_out_of_range_literal_panics :
    visit_stmt_mut [] c6_input = .panicked "base10_parse i32 out of range" := by
  simp [visit_stmt_mut, c6_input, base10_parse_i32]

/-- C8 counterexample: the declaration `let i: i32 = 0 as i32;` sits in
the first lexical block, the loop `while i < 3 {}` in a different, later
block, yet the rewrite uses the recorded initial value 0 from the first
block as the loop's lower bound. -/
theorem c8_counterexample_cross_block_bound :
    visit_file [] [c8_block1, c8_block2] =
      .ok ([("i", 0)],
        [c8_block1,
         [.exprStmt (.forRange "i" (.lit (.int 0)) (.lit (.int 3)) false []) false]]) := by
  simp [visit_file, visit_stmts, visit_stmt_mut, visit_expr_children, c8_block1,
    c8_block2, declStmt, filter_not_increment, is_increment_stmt, upper_bound_of,
    upper_bound_sized, filter_not_increment_sized,
    range_inclusive, base10_parse_i32, lookupVar, insertVar, List.lookup]

/-- C8 amended: recorded induction variables are scoped to the whole
translation unit, not to a lexical block — the `loop_vars` map is a field
of the pass instance and is never cleared between blocks, so a recording
declaration in one block supplies the lower bound of a counting loop in
any later-visited block. -/
theorem c8_amended_map_persists_across_blocks (v ty : String) (n ub : Int)
    (hn : base10_parse_i32 n = some n) :
    visit_file [] [[declStmt v ty n], [whileStmt .lt v [] (.lit (.int ub)) [] true]] =
      .ok ([(v, n)],
        [[declStmt v ty n],
         [.exprStmt (.forRange v (.lit (.int n)) (.lit (.int ub)) false []) false]]) := by
  simp [visit_file, visit_stmts, visit_stmt_mut, visit_expr_children, declStmt,
    whileStmt, filter_not_increment, is_increment_stmt, upper_bound_of,
    upper_bound_sized, filter_not_increment_sized, hn,
    range_inclusive, lookupVar, insertVar, List.lookup]

/-- C5: for a candidate counting loop — a while statement whose condition
compares a recorded induction variable (on the left) against a resolvable
upper bound — a `<` comparison emits an exclusive range, a `<=` comparison
emits an inclusive range (each unless a body-filter or body-visit panic
aborts the pass first), and any other comparison operator leaves the loop
statement untouched. -/
theorem c5_range_kind_from_operator (vars : LoopVars) (v : String)
    (lrest : List String) (rhs : Expr) (body : List Stmt) (semi : Bool)
    (op : BinOp) (lo : Int) (hlo : lookupVar vars v = some lo)
    (ub : Expr) (hub : upper_bound_of vars rhs = some ub) :
    (op = .lt →
      (∃ m, visit_stmt_mut vars (whileStmt op v lrest rhs body semi) = .panicked m) ∨
      (∃ vs b2, visit_stmt_mut vars (whileStmt op v lrest rhs body semi) =
        .ok (vs, .exprStmt (.forRange v (.lit (.int lo)) ub false b2) false))) ∧
    (op = .le →
      (∃ m, visit_stmt_mut vars (whileStmt op v lrest rhs body semi) = .panicked m) ∨
      (∃ vs b2, visit_stmt_mut vars (whileStmt op v lrest rhs body semi) =
        .ok (vs, .exprStmt (.forRange v (.lit (.int lo)) ub true b2) false))) ∧
    (op ≠ .lt → op ≠ .le →
      visit_stmt_mut vars (whileStmt op v lrest rhs body semi) =
        .ok (vars, whileStmt op v lrest rhs body semi)) := by
  refine ⟨?_, ?_, ?_⟩
  · rintro rfl
    rcases hf : filter_not_increment v body with m | filtered
    · refine Or.inl ⟨m, ?_⟩
      simp only [whileStmt, visit_stmt_mut, hlo, upper_bound_sized_of hub,
        range_inclusive, filter_not_increment_sized_panicked hf]
    · have hsf := filter_not_increment_sized_ok hf
      rcases hvs : visit_stmts vars filtered with m2 | p
      · refine Or.inl ⟨m2, ?_⟩
        simp only [whileStmt, visit_stmt_mut, hlo, upper_bound_sized_of hub,
          range_inclusive, hsf, visit_expr_children,
          visit_expr_children_upper_id hub, hvs]
      · obtain ⟨v3, body2⟩ := p
        refine Or.inr ⟨v3, body2, ?_⟩
        simp only [whileStmt, visit_stmt_mut, hlo, upper_bound_sized_of hub,
          range_inclusive, hsf, visit_expr_children,
          visit_expr_children_upper_id hub, hvs]
  · rintro rfl
    rcases hf : filter_not_increment v body with m | filtered
    · refine Or.inl ⟨m, ?_⟩
      simp only [whileStmt, visit_stmt_mut, hlo, upper_bound_sized_of hub,
        range_inclusive, filter_not_increment_sized_panicked hf]
    · have hsf := filter_not_increment_sized_ok hf
      rcases hvs : visit_stmts vars filtered with m2 | p
      · refine Or.inl ⟨m2, ?_⟩
        simp only [whileStmt, visit_stmt_mut, hlo, upper_bound_sized_of hub,
          range_inclusive, hsf, visit_expr_children,
          visit_expr_children_upper_id hub, hvs]
      · obtain ⟨v3, body2⟩ := p
        refine Or.inr ⟨v3, body2, ?_⟩
        simp only [whileStmt, visit_stmt_mut, hlo, upper_bound_sized_of hub,
          range_inclusive, hsf, visit_expr_children,
          visit_expr_children_upper_id hub, hvs]
  · intro h1 h2
    have hri : range_inclusive op = none := by
      cases op <;> simp_all [range_inclusive]
    simp only [whileStmt, visit_stmt_mut, hlo, upper_bound_sized_of hub, hri]

theorem c5_range_kind_from_operator_witness :
    lookupVar [("i", 0)] "i" = some 0 ∧
    upper_bound_of [("i", 0)] (.lit (.int 10)) = some (.lit (.int 10)) ∧
    ((BinOp.lt = BinOp.lt →
      (∃ m, visit_stmt_mut [("i", 0)]
          (whileStmt .lt "i" [] (.lit (.int 10)) [] true) = .panicked m) ∨
      (∃ vs b2, visit_stmt_mut [("i", 0)]
          (whileStmt .lt "i" [] (.lit (.int 10)) [] true) =
        .ok (vs, .exprStmt
          (.forRange "i" (.lit (.int 0)) (.lit (.int 10)) false b2) false))) ∧
    (BinOp.lt = BinOp.le →
      (∃ m, visit_stmt_mut [("i", 0)]
          (whileStmt .lt "i" [] (.lit (.int 10)) [] true) = .panicked m) ∨
      (∃ vs b2, visit_stmt_mut [("i", 0)]
          (whileStmt .lt "i" [] (.lit (.int 10)) [] true) =
        .ok (vs, .exprStmt
          (.forRange "i" (.lit (.int 0)) (.lit (.int 10)) true b2) false))) ∧
    (BinOp.lt ≠ BinOp.lt → BinOp.lt ≠ BinOp.le →
      visit_stmt_mut [("i", 0)] (whileStmt .lt "i" [] (.lit (.int 10)) [] true) =
        .ok ([("i", 0)], whileStmt .lt "i" [] (.lit (.int 10)) [] true))) :=
  ⟨rfl, rfl,
    c5_range_kind_from_operator [("i", 0)] "i" [] (.lit (.int 10)) [] true
      .lt 0 rfl (.lit (.int 10)) rfl⟩

theorem c8_amended_map_persists_across_blocks_witness :
    base10_parse_i32 0 = some 0 ∧
    visit_file []
        [[declStmt "i" "i32" 0], [whileStmt .lt "i" [] (.lit (.int 5)) [] true]] =
      .ok ([("i", 0)],
        [[declStmt "i" "i32" 0],
         [.exprStmt (.forRange "i" (.lit (.int 0)) (.lit (.int 5)) false []) false]]) :=
  ⟨by decide, c8_amended_map_persists_across_blocks "i" "i32" 0 5 (by decide)⟩

end Monadicast.WhileLoop
